import Mathlib

/-!
Verification development for the capella2polarion synchronization core.

The Python implementation of the synchronization pipeline is not part of the
available sources (only documentation, configuration samples and templates
are), so the definitions below are modelled from the specification's
description of the data model and algorithms.  Each such definition carries a
doc comment starting with `Modelled from the spec:` naming the missing piece.
-/

namespace Capella2Polarion

/-- Lexicographic less-or-equal on lists of naturals, used as the
deterministic comparison underlying all grouped-field sorting. -/
def tupLe : List Nat → List Nat → Bool
  | [], _ => true
  | _ :: _, [] => false
  | a :: as, b :: bs => if a < b then true else if b < a then false else tupLe as bs

theorem tupLe_total : ∀ x y : List Nat, (tupLe x y || tupLe y x) = true := by
  intro x
  induction x with
  | nil => intro y; simp [tupLe]
  | cons a as ih =>
    intro y
    cases y with
    | nil => simp [tupLe]
    | cons b bs =>
      simp only [tupLe]
      rcases Nat.lt_trichotomy a b with h | h | h
      · simp [h, Nat.lt_asymm h]
      · subst h
        simpa [Nat.lt_irrefl] using ih bs
      · simp [h, Nat.lt_asymm h]

theorem tupLe_trans :
    ∀ x y z : List Nat, tupLe x y = true → tupLe y z = true → tupLe x z = true := by
  intro x
  induction x with
  | nil => intro y z _ _; simp [tupLe]
  | cons a as ih =>
    intro y z hxy hyz
    cases y with
    | nil => simp [tupLe] at hxy
    | cons b bs =>
      cases z with
      | nil => simp [tupLe] at hyz
      | cons c cs =>
        simp only [tupLe] at hxy hyz ⊢
        rcases Nat.lt_trichotomy a b with hab | hab | hab
        · rcases Nat.lt_trichotomy b c with hbc | hbc | hbc
          · simp [Nat.lt_trans hab hbc, Nat.lt_asymm (Nat.lt_trans hab hbc)]
          · subst hbc; simp [hab, Nat.lt_asymm hab]
          · simp [hbc, Nat.lt_asymm hbc] at hyz
        · subst hab
          rcases Nat.lt_trichotomy a c with hac | hac | hac
          · simp [hac, Nat.lt_asymm hac]
          · subst hac
            simp only [Nat.lt_irrefl, if_false] at hxy hyz ⊢
            exact ih _ _ hxy hyz
          · simp [hac, Nat.lt_asymm hac] at hyz
        · simp [hab, Nat.lt_asymm hab] at hxy

theorem tupLe_antisymm :
    ∀ x y : List Nat, tupLe x y = true → tupLe y x = true → x = y := by
  intro x
  induction x with
  | nil =>
    intro y _ hyx
    cases y with
    | nil => rfl
    | cons b bs => simp [tupLe] at hyx
  | cons a as ih =>
    intro y hxy hyx
    cases y with
    | nil => simp [tupLe] at hxy
    | cons b bs =>
      simp only [tupLe] at hxy hyx
      rcases Nat.lt_trichotomy a b with hab | hab | hab
      · simp [hab, Nat.lt_asymm hab] at hyx
      · subst hab
        simp only [Nat.lt_irrefl, if_false] at hxy hyx
        rw [ih bs hxy hyx]
      · simp [hab, Nat.lt_asymm hab] at hxy

/-- Sort a list by an injective `List Nat` key, lexicographically.  This is the
single deterministic ordering used for every grouped link/backlink field. -/
def sortByKey {α : Type} (key : α → List Nat) (l : List α) : List α :=
  l.mergeSort (fun a b => tupLe (key a) (key b))

theorem sortByKey_perm {α : Type} (key : α → List Nat) (l : List α) :
    (sortByKey key l).Perm l :=
  List.mergeSort_perm l _

theorem sortByKey_sorted {α : Type} (key : α → List Nat) (l : List α) :
    List.Pairwise (fun a b => tupLe (key a) (key b) = true) (sortByKey key l) :=
  List.sorted_mergeSort
    (fun a b c hab hbc => tupLe_trans (key a) (key b) (key c) hab hbc)
    (fun a b => tupLe_total (key a) (key b)) l

theorem sortByKey_eq_of_perm {α : Type} (key : α → List Nat)
    (hinj : ∀ a b, key a = key b → a = b) {l₁ l₂ : List α} (h : l₁.Perm l₂) :
    sortByKey key l₁ = sortByKey key l₂ := by
  haveI : IsAntisymm α (fun a b => tupLe (key a) (key b) = true) :=
    ⟨fun a b h1 h2 => hinj a b (tupLe_antisymm (key a) (key b) h1 h2)⟩
  exact List.eq_of_perm_of_sorted
    (((sortByKey_perm key l₁).trans h).trans (sortByKey_perm key l₂).symm)
    (sortByKey_sorted key l₁) (sortByKey_sorted key l₂)

/-- Encoding of an optional natural as a natural (used inside sort keys). -/
def encOpt : Option Nat → Nat
  | none => 0
  | some n => n + 1

theorem encOpt_inj : ∀ a b : Option Nat, encOpt a = encOpt b → a = b := by
  intro a b h
  cases a <;> cases b <;> simp [encOpt] at h <;> simp [h]

/-- Encoding of a boolean as a natural (used inside sort keys). -/
def encBool : Bool → Nat
  | false => 0
  | true => 1

theorem encBool_inj : ∀ a b : Bool, encBool a = encBool b → a = b := by
  intro a b h
  cases a <;> cases b <;> simp [encBool] at h <;> rfl

/-- Modelled from the spec: `LinkDescriptor` — (role name, target external
key, optional included-reference group); enriched with the owning source
element's key/title and the target's title (the deterministic sort key), and
with the resolved "reverse field configured" flag.  The Python data model
(`capella2polarion.connectors`/`elements` link handling) is not in the
available sources. -/
structure LinkDescriptor where
  sourceKey : Nat
  sourceTitle : Nat
  role : Nat
  targetKey : Nat
  targetTitle : Nat
  incGroup : Option Nat
  hasReverse : Bool
deriving DecidableEq

/-- The deterministic sort key of a link entry: target title first, then
target external key, then the remaining fields as tie-breakers. -/
def descKey (d : LinkDescriptor) : List Nat :=
  [d.targetTitle, d.targetKey, d.role, d.sourceKey, d.sourceTitle,
   encOpt d.incGroup, encBool d.hasReverse]

theorem descKey_inj : ∀ a b : LinkDescriptor, descKey a = descKey b → a = b := by
  intro a b h
  cases a
  cases b
  simp only [descKey, List.cons.injEq, and_true] at h
  obtain ⟨h1, h2, h3, h4, h5, h6, h7⟩ := h
  simp [h1, h2, h3, h4, h5, encOpt_inj _ _ h6, encBool_inj _ _ h7]

/-- Modelled from the spec: a link specification from the matching
configuration — polarion role, optional include group label, optional reverse
(backlink) custom field. -/
structure LinkSpec where
  role : Nat
  incLabel : Option Nat
  reverseField : Option Nat
deriving DecidableEq

/-- Modelled from the spec: a target source element obtained by evaluating a
link spec's attribute path (the evaluation itself is an external
collaborator, so a spec comes paired with its evaluated targets). -/
structure Target where
  key : Nat
  title : Nat
deriving DecidableEq

/-- Whether a spec contributes backlink entries: a reverse field configured
explicitly, or implicitly via the global grouped-links toggle. -/
def specHasReverse (groupedLinksToggle : Bool) (s : LinkSpec) : Bool :=
  groupedLinksToggle || (s.reverseField.isSome)

/-- Modelled from the spec: resolution of one link spec for one source
element — emit a `LinkDescriptor` for every evaluated target whose external
key is present in the known external-key→remote-identifier mapping; drop the
others, recording them as broken links (role, target key). -/
def resolveSpec (toggle : Bool) (known : List Nat) (srcKey srcTitle : Nat)
    (s : LinkSpec) (targets : List Target) :
    List LinkDescriptor × List (Nat × Nat) :=
  ((targets.filter (fun t => known.contains t.key)).map
     (fun t => LinkDescriptor.mk srcKey srcTitle s.role t.key t.title
        s.incLabel (specHasReverse toggle s)),
   (targets.filter (fun t => !known.contains t.key)).map (fun t => (s.role, t.key)))

/-- Modelled from the spec: resolution of all link specs of one element; the
element's descriptor list is the concatenation over its specs, and broken
links are accumulated without failing the element. -/
def resolveLinks (toggle : Bool) (known : List Nat) (srcKey srcTitle : Nat)
    (specs : List (LinkSpec × List Target)) :
    List LinkDescriptor × List (Nat × Nat) :=
  ((specs.map (fun st => (resolveSpec toggle known srcKey srcTitle st.1 st.2).1)).flatten,
   (specs.map (fun st => (resolveSpec toggle known srcKey srcTitle st.1 st.2).2)).flatten)

/-- Modelled from the spec: the grouped direct link field value for one role —
the deduplicated descriptors of that role, sorted by the deterministic key
(target title, then target external key). -/
def groupedLinkEntries (descs : List LinkDescriptor) (role : Nat) : List LinkDescriptor :=
  sortByKey descKey ((descs.filter (fun d => d.role == role)).dedup)

/-- The sorted deduplicated list of roles occurring in a descriptor list. -/
def rolesOf (descs : List LinkDescriptor) : List Nat :=
  sortByKey (fun n => [n]) ((descs.map (fun d => d.role)).dedup)

/-- Sort key for a custom-field assignment (field name, value). -/
def pairKey (p : Nat × Nat) : List Nat := [p.1, p.2]

theorem pairKey_inj : ∀ a b : Nat × Nat, pairKey a = pairKey b → a = b := by
  intro a b h
  cases a
  cases b
  simp only [pairKey, List.cons.injEq, and_true] at h
  simp [h.1, h.2]

/-- Modelled from the spec: `WorkItemDraft` — type identifier, title, rich
text description, custom fields (order irrelevant, canonicalised sorted) and
the grouped link fields per role. -/
structure WorkItemDraft where
  typ : Nat
  title : Nat
  description : Nat
  fields : List (Nat × Nat)
  linkFields : List (Nat × List LinkDescriptor)
deriving DecidableEq

/-- Modelled from the spec: draft construction from the serialized scalar
content plus the element's resolved link descriptors; grouped link fields are
computed per role from the descriptor set. -/
def buildDraft (typ title description : Nat) (fields : List (Nat × Nat))
    (descs : List LinkDescriptor) : WorkItemDraft :=
  { typ := typ, title := title, description := description
    fields := sortByKey pairKey fields.dedup
    linkFields := (rolesOf descs).map (fun r => (r, groupedLinkEntries descs r)) }

/-- Injective encoding of a list of naturals as one natural. -/
def encodeList : List Nat → Nat
  | [] => 0
  | n :: ns => Nat.pair n (encodeList ns) + 1

/-- Encoding of one link descriptor as a natural. -/
def encodeDesc (d : LinkDescriptor) : Nat := encodeList (descKey d)

/-- Modelled from the spec: the draft checksum — a stable hash over all
externally-visible content including the grouped link fields. -/
def checksumDraft (w : WorkItemDraft) : Nat :=
  encodeList [w.typ, w.title, w.description,
    encodeList (w.fields.map (fun p => Nat.pair p.1 p.2)),
    encodeList (w.linkFields.map
      (fun rf => Nat.pair rf.1 (encodeList (rf.2.map encodeDesc))))]

/-- Modelled from the spec: pass 2 of link resolution — the grouped backlink
field of a target work item for one role is the union of the reverse-enabled
links contributed by every element, as (source title, source key) references,
deduplicated and sorted by the deterministic key. -/
def backlinkEntries (allDescs : List LinkDescriptor) (tKey role : Nat) :
    List (Nat × Nat) :=
  sortByKey pairKey
    (((allDescs.filter
        (fun d => d.targetKey == tKey && d.role == role && d.hasReverse)).map
      (fun d => (d.sourceTitle, d.sourceKey))).dedup)

/-- One element's input to link resolution: its key, its title and its
configured link specs, each paired with the targets obtained by evaluating
the spec's attribute path. -/
structure ElementInput where
  key : Nat
  title : Nat
  specs : List (LinkSpec × List Target)
deriving DecidableEq

/-- Modelled from the spec: sequential processing of all elements against an
incrementally grown known-mapping — each element resolves its links against
the mapping as of its turn, then its own key is appended (its item is
created), so later elements can link to items created earlier in the run. -/
def processElements (toggle : Bool) (known : List Nat) :
    List ElementInput → List (Nat × (List LinkDescriptor × List (Nat × Nat)))
  | [] => []
  | e :: rest =>
    (e.key, resolveLinks toggle known e.key e.title e.specs) ::
      processElements toggle (known ++ [e.key]) rest

/-- The concatenation of all elements' descriptor lists (input of pass 2). -/
def allDescsOf (els : List (Nat × List LinkDescriptor)) : List LinkDescriptor :=
  (els.map (fun e => e.2)).flatten

/-- Work item status as stored remotely. -/
inductive WIStatus
  | normal
  | deleted
  | other (n : Nat)
deriving DecidableEq

/-- The per-element summary the diff driver works on: external key and
draft checksum. -/
structure SyncDraft where
  key : Nat
  checksum : Nat
deriving DecidableEq

/-- Modelled from the spec: `RemoteWorkItem` — the last-known remote state,
indexed by the external key stored in the dedicated remote attribute
(`uuid_capella`), with remote-assigned identifier, stored checksum
(`checksum` custom field) and status. -/
structure RemoteWorkItem where
  wid : Nat
  key : Nat
  checksum : Nat
  status : WIStatus
deriving DecidableEq

inductive SyncError
  | duplicateKey
deriving DecidableEq

inductive SyncAction
  | create (d : SyncDraft)
  | patch (wid : Nat) (d : SyncDraft)
  | noop
deriving DecidableEq

/-- Modelled from the spec: lookup of the remote item carrying an external
key; finding two is a detectable invariant violation escalated as an error
for that element. -/
def getByKey (inv : List RemoteWorkItem) (k : Nat) :
    Except SyncError (Option RemoteWorkItem) :=
  match inv.filter (fun r => r.key == k) with
  | [] => .ok none
  | [r] => .ok (some r)
  | _ :: _ :: _ => .error .duplicateKey

/-- Modelled from the spec: the diff driver's per-item decision — create when
the key is unmapped, update when the item is marked deleted (clearing the
marker reuses the remote identifier), no-op when checksums agree, else
patch. -/
def decideAction (inv : List RemoteWorkItem) (d : SyncDraft) :
    Except SyncError SyncAction :=
  match getByKey inv d.key with
  | .error e => .error e
  | .ok none => .ok (.create d)
  | .ok (some r) =>
    if r.status = .deleted then .ok (.patch r.wid d)
    else if d.checksum = r.checksum then .ok .noop
    else .ok (.patch r.wid d)

/-- The remote mutation calls issued by one synchronization run. -/
structure RunResult where
  creates : List SyncDraft
  patches : List (Nat × SyncDraft)
  statusUpdates : List Nat
  hardDeletes : List Nat
  errors : List Nat
deriving DecidableEq

/-- The draft of the current pass carrying an external key, if any. -/
def draftFor (drafts : List SyncDraft) (k : Nat) : Option SyncDraft :=
  drafts.find? (fun d => d.key == k)

/-- Remote items whose external key has no draft this pass and which are not
already marked deleted (marked-deleted is terminal until reappearance). -/
def obsoleteItems (drafts : List SyncDraft) (inv : List RemoteWorkItem) :
    List RemoteWorkItem :=
  inv.filter (fun r => (draftFor drafts r.key).isNone && r.status != WIStatus.deleted)

/-- Modelled from the spec: one synchronization run — per-draft decisions
plus the deletion pass; with the destructive-delete flag set, obsolete items
are hard-deleted, otherwise their status is set to the deleted marker. -/
def runSync (flag : Bool) (drafts : List SyncDraft) (inv : List RemoteWorkItem) :
    RunResult :=
  { creates := drafts.filterMap (fun d =>
      match decideAction inv d with
      | .ok (.create _) => some d
      | _ => none)
    patches := drafts.filterMap (fun d =>
      match decideAction inv d with
      | .ok (.patch w _) => some (w, d)
      | _ => none)
    statusUpdates := if flag then [] else (obsoleteItems drafts inv).map (fun r => r.wid)
    hardDeletes := if flag then (obsoleteItems drafts inv).map (fun r => r.wid) else []
    errors := drafts.filterMap (fun d =>
      match decideAction inv d with
      | .error _ => some d.key
      | _ => none) }

/-- An upper bound on the remote identifiers in use. -/
def maxWid (inv : List RemoteWorkItem) : Nat :=
  (inv.map (fun r => r.wid)).foldr Nat.max 0

/-- Remote items resulting from the bulk-create call, with fresh consecutive
remote identifiers. -/
def mkCreated : Nat → List SyncDraft → List RemoteWorkItem
  | _, [] => []
  | n, d :: ds =>
    RemoteWorkItem.mk n d.key d.checksum WIStatus.normal :: mkCreated (n + 1) ds

/-- Drafts whose external key has no remote item yet (the create set). -/
def newDrafts (drafts : List SyncDraft) (inv : List RemoteWorkItem) :
    List SyncDraft :=
  drafts.filter (fun d => inv.all (fun r => r.key != d.key))

/-- Modelled from the spec: effect of the run's calls on one pre-existing
remote item — patched items get the draft checksum and a cleared marker,
no-op items are untouched, items without a draft are soft-deleted (or removed
when the destructive flag is set). -/
def stepRemote (flag : Bool) (drafts : List SyncDraft) (r : RemoteWorkItem) :
    Option RemoteWorkItem :=
  match draftFor drafts r.key with
  | some d =>
    if r.status = .deleted then
      some { r with checksum := d.checksum, status := .normal }
    else if d.checksum = r.checksum then some r
    else some { r with checksum := d.checksum, status := .normal }
  | none => if flag then none else some { r with status := .deleted }

/-- The remote inventory after executing all calls of one run. -/
def applyRun (flag : Bool) (drafts : List SyncDraft) (inv : List RemoteWorkItem) :
    List RemoteWorkItem :=
  inv.filterMap (stepRemote flag drafts) ++
    mkCreated (maxWid inv + 1) (newDrafts drafts inv)

/-- A remote-backed document section item (headings and free text are work
items too), with its remote identifier, current status and content. -/
structure DocItem where
  wid : Nat
  status : WIStatus
  content : Nat
deriving DecidableEq

/-- Modelled from the spec: the status gate — a remote work item is
overwritten with the candidate content only if its current status is in the
configured allow-list, otherwise it is left unmodified. -/
def gateUpdate (allow : List WIStatus) (c : Nat) (r : DocItem) : DocItem :=
  if r.status ∈ allow then { r with content := c } else r

/-- Modelled from the spec: full-authority reconciliation of a section
sequence — every remote-backed section is re-rendered from the candidate
content for its item, subject to the status gate. -/
def reconcileFull (allow : List WIStatus) (cand : Nat → Nat)
    (secs : List DocItem) : List DocItem :=
  secs.map (fun r => gateUpdate allow (cand r.wid) r)

/-- A contiguous range of a mixed-authority document: author-owned (delimited
by the wiki-macro marker convention) or system-owned. -/
inductive Region
  | authorOwned (secs : List DocItem)
  | systemOwned (secs : List DocItem)
deriving DecidableEq

/-- Modelled from the spec: mixed-authority reconciliation — author-owned
ranges are left untouched, system-owned ranges are reconciled exactly as in
full-authority mode, within their range boundaries. -/
def reconcileMixed (allow : List WIStatus) (cand : Nat → Nat)
    (doc : List Region) : List Region :=
  doc.map (fun reg =>
    match reg with
    | .authorOwned s => Region.authorOwned s
    | .systemOwned s => Region.systemOwned (reconcileFull allow cand s))

/-- A source element as seen by the config resolver: layer, class type and
the discriminating attributes used by variant configurations. -/
structure CElement where
  layer : Nat
  typ : Nat
  isActor : Bool
  nature : Nat
deriving DecidableEq

/-- Attribute conditions of a discriminated config variant (e.g. the
`is_actor`/`nature` combinations of `PhysicalComponent`). -/
structure Discriminator where
  actorCond : Option Bool
  natureCond : Option Nat
deriving DecidableEq

def discMatches (c : Discriminator) (e : CElement) : Bool :=
  (match c.actorCond with
   | none => true
   | some b => e.isActor == b) &&
  (match c.natureCond with
   | none => true
   | some n => e.nature == n)

def discIsGeneric (c : Discriminator) : Bool :=
  c.actorCond.isNone && c.natureCond.isNone

/-- One configuration entry for a class type: discriminator (trivial for the
generic entry), optional polarion type override and link list. -/
structure ConfigEntry where
  disc : Discriminator
  polarionType : Option Nat
  links : List Nat
deriving DecidableEq

/-- The configuration entries of one class type within a layer. -/
structure TypeSection where
  typName : Nat
  entries : List ConfigEntry
deriving DecidableEq

/-- Modelled from the spec: the matching configuration — per-layer sections,
the wildcard-layer per-type sections, and the wildcard any-layer/any-type
entry (its link list, present iff the entry exists). -/
structure SyncConfig where
  starStar : Option (List Nat)
  starTypes : List TypeSection
  layers : List (Nat × List TypeSection)
deriving DecidableEq

inductive ConfigError
  | unmatched
  | ambiguous
deriving DecidableEq

/-- The resolver's output: polarion type override and merged link list. -/
structure ResolvedConfig where
  polarionType : Option Nat
  links : List Nat
deriving DecidableEq

def findTypeSec (ts : List TypeSection) (t : Nat) : Option TypeSection :=
  ts.find? (fun s => s.typName == t)

/-- Modelled from the spec: entry selection within a type section — a
uniquely matching discriminated variant beats the generic entry; two matching
variants are ambiguous; no variant and no generic entry is unmatched. -/
def pickEntry (entries : List ConfigEntry) (e : CElement) :
    Except ConfigError ConfigEntry :=
  match entries.filter (fun en => !discIsGeneric en.disc && discMatches en.disc e) with
  | [v] => .ok v
  | [] =>
    match entries.find? (fun en => discIsGeneric en.disc) with
    | some g => .ok g
    | none => .error .unmatched
  | _ :: _ :: _ => .error .ambiguous

/-- The wildcard any-layer/any-type links, empty when the entry is absent. -/
def starStarLinks (cfg : SyncConfig) : List Nat :=
  match cfg.starStar with
  | some ls => ls
  | none => []

/-- The wildcard-layer links to merge for a class type: the links of the
wildcard-layer section for that type plus the any-layer/any-type links. -/
def starLinksFor (cfg : SyncConfig) (t : Nat) : List Nat :=
  (match findTypeSec cfg.starTypes t with
   | some sec => (sec.entries.map (fun en => en.links)).flatten
   | none => []) ++ starStarLinks cfg

/-- Modelled from the spec: the config resolver — most specific match first
(the element's layer section for its type, then the wildcard-layer section,
then the any-layer/any-type entry), wildcard link lists merged into (not
replacing) the matched entry's links; unmatched/ambiguous are configuration
errors. -/
def resolveConfig (cfg : SyncConfig) (e : CElement) :
    Except ConfigError ResolvedConfig :=
  match (cfg.layers.find? (fun ls => ls.1 == e.layer)).bind
      (fun ls => findTypeSec ls.2 e.typ) with
  | some sec =>
    match pickEntry sec.entries e with
    | .ok en => .ok (ResolvedConfig.mk en.polarionType (en.links ++ starLinksFor cfg e.typ))
    | .error er => .error er
  | none =>
    match findTypeSec cfg.starTypes e.typ with
    | some sec =>
      match pickEntry sec.entries e with
      | .ok en => .ok (ResolvedConfig.mk en.polarionType (en.links ++ starStarLinks cfg))
      | .error er => .error er
    | none =>
      match cfg.starStar with
      | some ls => .ok (ResolvedConfig.mk none ls)
      | none => .error .unmatched

/-- The rendered SVG of a diagram: its visual content together with the
regenerated identifiers of decorative/stylistic elements that vary between
otherwise identical renderings. -/
structure SVGImage where
  visual : Nat
  decorIds : Nat
deriving DecidableEq

/-- Modelled from the spec: the SVG→PNG rasterization collaborator
(cairosvg) — the PNG is a function of the rendered visual content only, not
of the regenerated identifiers of decorative or stylistic elements. -/
def svgToPng (s : SVGImage) : Nat := s.visual

inductive Attachment
  | svgFile (s : SVGImage)
  | pngFile (p : Nat)
deriving DecidableEq

structure DiagramDraft where
  base : WorkItemDraft
  attachments : List Attachment
  checksum : Nat
deriving DecidableEq

/-- Modelled from the spec: the diagram serializer — attaches the diagram
both as SVG and as its PNG conversion, and computes the work-item checksum
over the PNG conversion rather than over the SVG text. -/
def serializeDiagram (base : WorkItemDraft) (svg : SVGImage) : DiagramDraft :=
  { base := base
    attachments := [Attachment.svgFile svg, Attachment.pngFile (svgToPng svg)]
    checksum := Nat.pair (checksumDraft base) (svgToPng svg) }

theorem gateUpdate_of_not_allowed {allow : List WIStatus} {r : DocItem}
    (h : r.status ∉ allow) (c : Nat) : gateUpdate allow c r = r := by
  unfold gateUpdate
  rw [if_neg h]

/-- C5: in both document reconciliation modes, every remote work item whose
current status is outside the configured allow-list is left completely
unmodified by the reconciler, even when its candidate content differs from
the stored remote content. -/
theorem c5_status_gate_skip (allow : List WIStatus) (cand : Nat → Nat) :
    (∀ (secs : List DocItem) (i : Nat) (r : DocItem), secs[i]? = some r →
       r.status ∉ allow → (reconcileFull allow cand secs)[i]? = some r) ∧
    (∀ (doc : List Region) (i j : Nat) (s : List DocItem) (r : DocItem),
       doc[i]? = some (Region.systemOwned s) → s[j]? = some r →
       r.status ∉ allow →
       (reconcileMixed allow cand doc)[i]? =
           some (Region.systemOwned (reconcileFull allow cand s)) ∧
         (reconcileFull allow cand s)[j]? = some r) := by
  have hfull : ∀ (secs : List DocItem) (i : Nat) (r : DocItem), secs[i]? = some r →
      r.status ∉ allow → (reconcileFull allow cand secs)[i]? = some r := by
    intro secs i r hi hr
    simp only [reconcileFull, List.getElem?_map, hi]
    show some (gateUpdate allow (cand r.wid) r) = some r
    rw [gateUpdate_of_not_allowed hr]
  refine ⟨hfull, ?_⟩
  intro doc i j s r hi hj hr
  constructor
  · simp only [reconcileMixed, List.getElem?_map, hi]
    rfl
  · exact hfull s j r hj hr

theorem c5_status_gate_skip_witness :
    (reconcileFull [WIStatus.normal] (fun _ => 9)
        [DocItem.mk 0 (WIStatus.other 2) 1])[0]? =
      some (DocItem.mk 0 (WIStatus.other 2) 1) :=
  (c5_status_gate_skip [WIStatus.normal] (fun _ => 9)).1
    [DocItem.mk 0 (WIStatus.other 2) 1] 0 (DocItem.mk 0 (WIStatus.other 2) 1)
    (by decide) (by decide)

/-- C6: mixed-authority reconciliation changes only system-owned ranges:
the region list keeps its length, every author-owned range is returned
byte-identical at its original position, and every system-owned range is
reconciled in place. -/
theorem c6_mixed_authority_containment (allow : List WIStatus) (cand : Nat → Nat)
    (doc : List Region) :
    (reconcileMixed allow cand doc).length = doc.length ∧
    (∀ (i : Nat) (s : List DocItem), doc[i]? = some (Region.authorOwned s) →
       (reconcileMixed allow cand doc)[i]? = some (Region.authorOwned s)) ∧
    (∀ (i : Nat) (s : List DocItem), doc[i]? = some (Region.systemOwned s) →
       (reconcileMixed allow cand doc)[i]? =
         some (Region.systemOwned (reconcileFull allow cand s))) := by
  refine ⟨List.length_map doc _, ?_, ?_⟩
  · intro i s hi
    simp only [reconcileMixed, List.getElem?_map, hi]
    rfl
  · intro i s hi
    simp only [reconcileMixed, List.getElem?_map, hi]
    rfl

theorem c6_mixed_authority_containment_witness :
    (reconcileMixed [WIStatus.normal] (fun _ => 7)
        [Region.authorOwned [DocItem.mk 0 WIStatus.normal 3],
         Region.systemOwned [DocItem.mk 1 WIStatus.normal 4]])[0]? =
      some (Region.authorOwned [DocItem.mk 0 WIStatus.normal 3]) :=
  (c6_mixed_authority_containment [WIStatus.normal] (fun _ => 7)
    [Region.authorOwned [DocItem.mk 0 WIStatus.normal 3],
     Region.systemOwned [DocItem.mk 1 WIStatus.normal 4]]).2.1 0
    [DocItem.mk 0 WIStatus.normal 3] (by decide)

/-- C10: the diagram checksum is computed over the PNG conversion of the
rendered SVG, so two renderings that differ only in non-visual details hash
equal and trigger no patch call; both the SVG and its PNG conversion are
attached. -/
theorem c10_diagram_checksum_over_png (base : WorkItemDraft)
    (svg₁ svg₂ : SVGImage) (h : svg₁.visual = svg₂.visual) :
    (serializeDiagram base svg₁).checksum = (serializeDiagram base svg₂).checksum ∧
    (∀ w k, decideAction
        [RemoteWorkItem.mk w k (serializeDiagram base svg₁).checksum WIStatus.normal]
        (SyncDraft.mk k (serializeDiagram base svg₂).checksum) = .ok .noop) ∧
    Attachment.svgFile svg₂ ∈ (serializeDiagram base svg₂).attachments ∧
    Attachment.pngFile (svgToPng svg₂) ∈ (serializeDiagram base svg₂).attachments := by
  have hcs : (serializeDiagram base svg₁).checksum =
      (serializeDiagram base svg₂).checksum := by
    simp [serializeDiagram, svgToPng, h]
  refine ⟨hcs, ?_, ?_, ?_⟩
  · intro w k
    simp [decideAction, getByKey, hcs]
  · simp [serializeDiagram]
  · simp [serializeDiagram]

theorem c10_diagram_checksum_over_png_witness :
    (serializeDiagram (WorkItemDraft.mk 0 0 0 [] []) (SVGImage.mk 3 1)).checksum =
      (serializeDiagram (WorkItemDraft.mk 0 0 0 [] []) (SVGImage.mk 3 2)).checksum ∧
    decideAction
        [RemoteWorkItem.mk 5 7
          (serializeDiagram (WorkItemDraft.mk 0 0 0 [] []) (SVGImage.mk 3 1)).checksum
          WIStatus.normal]
        (SyncDraft.mk 7
          (serializeDiagram (WorkItemDraft.mk 0 0 0 [] []) (SVGImage.mk 3 2)).checksum) =
      .ok .noop :=
  ⟨(c10_diagram_checksum_over_png (WorkItemDraft.mk 0 0 0 [] [])
      (SVGImage.mk 3 1) (SVGImage.mk 3 2) rfl).1,
   (c10_diagram_checksum_over_png (WorkItemDraft.mk 0 0 0 [] [])
      (SVGImage.mk 3 1) (SVGImage.mk 3 2) rfl).2.1 5 7⟩

theorem processElements_getElem (toggle : Bool) :
    ∀ (els : List ElementInput) (known : List Nat) (i : Nat) (e : ElementInput),
      els[i]? = some e →
      (processElements toggle known els)[i]? =
        some (e.key, resolveLinks toggle
          (known ++ ((els.take i).map (fun x => x.key))) e.key e.title e.specs) := by
  intro els
  induction els with
  | nil => intro known i e h; simp at h
  | cons a rest ih =>
    intro known i e h
    cases i with
    | zero =>
      simp only [List.getElem?_cons_zero, Option.some.injEq] at h
      subst h
      simp [processElements]
    | succ n =>
      simp only [List.getElem?_cons_succ] at h
      have hr := ih (known ++ [a.key]) n e h
      simp only [processElements, List.getElem?_cons_succ, List.take_succ_cons,
        List.map_cons]
      rw [hr]
      simp

/-- C9: a resolved target is emitted as a link descriptor iff its external
key is in the known mapping (grown incrementally, so items created earlier in
the run count); targets with unknown keys are dropped and recorded as broken
links, without failing the element. -/
theorem c9_broken_links_recorded (toggle : Bool) (known : List Nat)
    (srcKey srcTitle : Nat) (specs : List (LinkSpec × List Target)) :
    (∀ d, d ∈ (resolveLinks toggle known srcKey srcTitle specs).1 →
       known.contains d.targetKey = true) ∧
    (∀ s targets t, (s, targets) ∈ specs → t ∈ targets →
       known.contains t.key = true →
       LinkDescriptor.mk srcKey srcTitle s.role t.key t.title s.incLabel
         (specHasReverse toggle s) ∈ (resolveLinks toggle known srcKey srcTitle specs).1) ∧
    (∀ s targets t, (s, targets) ∈ specs → t ∈ targets →
       known.contains t.key = false →
       (s.role, t.key) ∈ (resolveLinks toggle known srcKey srcTitle specs).2) ∧
    (∀ (els : List ElementInput) (i : Nat) (e : ElementInput), els[i]? = some e →
       (processElements toggle known els)[i]? =
         some (e.key, resolveLinks toggle
           (known ++ ((els.take i).map (fun x => x.key))) e.key e.title e.specs)) := by
  refine ⟨?_, ?_, ?_, fun els i e h => processElements_getElem toggle els known i e h⟩
  · intro d hd
    simp only [resolveLinks, List.mem_flatten, List.mem_map] at hd
    obtain ⟨l, ⟨st, _, hl⟩, hdl⟩ := hd
    subst hl
    simp only [resolveSpec, List.mem_map, List.mem_filter] at hdl
    obtain ⟨t, ⟨_, ht⟩, hdt⟩ := hdl
    subst hdt
    exact ht
  · intro s targets t hst ht hk
    simp only [resolveLinks, List.mem_flatten, List.mem_map]
    refine ⟨(resolveSpec toggle known srcKey srcTitle s targets).1,
      ⟨(s, targets), hst, rfl⟩, ?_⟩
    simp only [resolveSpec, List.mem_map, List.mem_filter]
    exact ⟨t, ⟨ht, hk⟩, rfl⟩
  · intro s targets t hst ht hk
    simp only [resolveLinks, List.mem_flatten, List.mem_map]
    refine ⟨(resolveSpec toggle known srcKey srcTitle s targets).2,
      ⟨(s, targets), hst, rfl⟩, ?_⟩
    simp only [resolveSpec, List.mem_map, List.mem_filter]
    exact ⟨t, ⟨ht, by simpa using hk⟩, rfl⟩

theorem c9_broken_links_recorded_witness :
    LinkDescriptor.mk 10 11 1 20 21 none true ∈
      (resolveLinks true [20] 10 11
        [(LinkSpec.mk 1 none none, [Target.mk 20 21, Target.mk 30 31])]).1 ∧
    (1, 30) ∈
      (resolveLinks true [20] 10 11
        [(LinkSpec.mk 1 none none, [Target.mk 20 21, Target.mk 30 31])]).2 :=
  ⟨(c9_broken_links_recorded true [20] 10 11
      [(LinkSpec.mk 1 none none, [Target.mk 20 21, Target.mk 30 31])]).2.1
      (LinkSpec.mk 1 none none) [Target.mk 20 21, Target.mk 30 31]
      (Target.mk 20 21) (by decide) (by decide) (by decide),
   (c9_broken_links_recorded true [20] 10 11
      [(LinkSpec.mk 1 none none, [Target.mk 20 21, Target.mk 30 31])]).2.2.1
      (LinkSpec.mk 1 none none) [Target.mk 20 21, Target.mk 30 31]
      (Target.mk 30 31) (by decide) (by decide) (by decide)⟩

/-- C7: the resolver returns the most specific matching entry — a uniquely
matching discriminated variant beats the generic per-type entry, which beats
the wildcard entry; wildcard link lists are merged into (not replacing) the
matched entry's links; zero matches and ambiguous variant sets are
configuration errors. -/
theorem c7_config_precedence (cfg : SyncConfig) (e : CElement) :
    (∀ sec v,
       (cfg.layers.find? (fun ls => ls.1 == e.layer)).bind
           (fun ls => findTypeSec ls.2 e.typ) = some sec →
       sec.entries.filter
           (fun en => !discIsGeneric en.disc && discMatches en.disc e) = [v] →
       resolveConfig cfg e =
         .ok (ResolvedConfig.mk v.polarionType (v.links ++ starLinksFor cfg e.typ))) ∧
    (∀ sec g,
       (cfg.layers.find? (fun ls => ls.1 == e.layer)).bind
           (fun ls => findTypeSec ls.2 e.typ) = some sec →
       sec.entries.filter
           (fun en => !discIsGeneric en.disc && discMatches en.disc e) = [] →
       sec.entries.find? (fun en => discIsGeneric en.disc) = some g →
       resolveConfig cfg e =
         .ok (ResolvedConfig.mk g.polarionType (g.links ++ starLinksFor cfg e.typ))) ∧
    (∀ ls,
       (cfg.layers.find? (fun ls => ls.1 == e.layer)).bind
           (fun ls => findTypeSec ls.2 e.typ) = none →
       findTypeSec cfg.starTypes e.typ = none →
       cfg.starStar = some ls →
       resolveConfig cfg e = .ok (ResolvedConfig.mk none ls)) ∧
    ((cfg.layers.find? (fun ls => ls.1 == e.layer)).bind
           (fun ls => findTypeSec ls.2 e.typ) = none →
       findTypeSec cfg.starTypes e.typ = none →
       cfg.starStar = none →
       resolveConfig cfg e = .error .unmatched) ∧
    (∀ sec v₁ v₂ rest,
       (cfg.layers.find? (fun ls => ls.1 == e.layer)).bind
           (fun ls => findTypeSec ls.2 e.typ) = some sec →
       sec.entries.filter
           (fun en => !discIsGeneric en.disc && discMatches en.disc e) =
         v₁ :: v₂ :: rest →
       resolveConfig cfg e = .error .ambiguous) := by
  refine ⟨?_, ?_, ?_, ?_, ?_⟩
  · intro sec v h1 h2
    simp [resolveConfig, pickEntry, h1, h2]
  · intro sec g h1 h2 h3
    simp [resolveConfig, pickEntry, h1, h2, h3]
  · intro ls h1 h2 h3
    simp [resolveConfig, h1, h2, h3]
  · intro h1 h2 h3
    simp [resolveConfig, h1, h2, h3]
  · intro sec v₁ v₂ rest h1 h2
    simp [resolveConfig, pickEntry, h1, h2]

theorem c7_config_precedence_witness :
    resolveConfig
        (SyncConfig.mk (some [9]) []
          [(0, [TypeSection.mk 1
            [ConfigEntry.mk (Discriminator.mk none none) (some 2) [5],
             ConfigEntry.mk (Discriminator.mk (some true) (some 4)) (some 3) [6]]])])
        (CElement.mk 0 1 true 4) =
      .ok (ResolvedConfig.mk (some 3) ([6] ++ starLinksFor
        (SyncConfig.mk (some [9]) []
          [(0, [TypeSection.mk 1
            [ConfigEntry.mk (Discriminator.mk none none) (some 2) [5],
             ConfigEntry.mk (Discriminator.mk (some true) (some 4)) (some 3) [6]]])]) 1)) :=
  (c7_config_precedence
      (SyncConfig.mk (some [9]) []
        [(0, [TypeSection.mk 1
          [ConfigEntry.mk (Discriminator.mk none none) (some 2) [5],
           ConfigEntry.mk (Discriminator.mk (some true) (some 4)) (some 3) [6]]])])
      (CElement.mk 0 1 true 4)).1
    (TypeSection.mk 1
      [ConfigEntry.mk (Discriminator.mk none none) (some 2) [5],
       ConfigEntry.mk (Discriminator.mk (some true) (some 4)) (some 3) [6]])
    (ConfigEntry.mk (Discriminator.mk (some true) (some 4)) (some 3) [6])
    (by decide) (by decide)

theorem mem_iff_of_toFinset_eq {α : Type} [DecidableEq α] {l₁ l₂ : List α}
    (h : l₁.toFinset = l₂.toFinset) (a : α) : a ∈ l₁ ↔ a ∈ l₂ := by
  rw [← List.mem_toFinset, h, List.mem_toFinset]

theorem toFinset_map_eq {α β : Type} [DecidableEq α] [DecidableEq β] (f : α → β)
    {l₁ l₂ : List α} (h : l₁.toFinset = l₂.toFinset) :
    (l₁.map f).toFinset = (l₂.map f).toFinset := by
  ext b
  simp only [List.mem_toFinset, List.mem_map]
  constructor
  · rintro ⟨a, ha, rfl⟩
    exact ⟨a, (mem_iff_of_toFinset_eq h a).1 ha, rfl⟩
  · rintro ⟨a, ha, rfl⟩
    exact ⟨a, (mem_iff_of_toFinset_eq h a).2 ha, rfl⟩

theorem groupedLinkEntries_eq_of_toFinset {l₁ l₂ : List LinkDescriptor}
    (h : l₁.toFinset = l₂.toFinset) (role : Nat) :
    groupedLinkEntries l₁ role = groupedLinkEntries l₂ role := by
  apply sortByKey_eq_of_perm descKey descKey_inj
  rw [← List.toFinset_eq_iff_perm_dedup]
  rw [List.toFinset_filter, List.toFinset_filter, h]

theorem rolesOf_eq_of_toFinset {l₁ l₂ : List LinkDescriptor}
    (h : l₁.toFinset = l₂.toFinset) : rolesOf l₁ = rolesOf l₂ := by
  apply sortByKey_eq_of_perm (fun n => [n])
    (fun a b hab => by simpa using hab)
  rw [← List.toFinset_eq_iff_perm_dedup]
  exact toFinset_map_eq _ h

theorem buildDraft_eq_of_toFinset (typ title description : Nat)
    (fields : List (Nat × Nat)) {descs₁ descs₂ : List LinkDescriptor}
    (h : descs₁.toFinset = descs₂.toFinset) :
    buildDraft typ title description fields descs₁ =
      buildDraft typ title description fields descs₂ := by
  simp only [buildDraft, WorkItemDraft.mk.injEq, true_and]
  rw [← rolesOf_eq_of_toFinset h]
  exact List.map_congr_left
    (fun r _ => by rw [groupedLinkEntries_eq_of_toFinset h r])

/-- C2: a draft is a function of the element's content and its link set only:
reordering elements or link specs (more generally, any two descriptor lists
with equal underlying sets) yields the identical draft and hence the
identical checksum; grouped fields are sorted by the deterministic key, and
the backlink pass is likewise order-independent. -/
theorem c2_checksum_order_stable (typ title description : Nat)
    (fields : List (Nat × Nat)) (descs₁ descs₂ : List LinkDescriptor)
    (h : descs₁.toFinset = descs₂.toFinset) :
    buildDraft typ title description fields descs₁ =
      buildDraft typ title description fields descs₂ ∧
    checksumDraft (buildDraft typ title description fields descs₁) =
      checksumDraft (buildDraft typ title description fields descs₂) ∧
    (∀ role, List.Pairwise (fun a b => tupLe (descKey a) (descKey b) = true)
       (groupedLinkEntries descs₁ role)) ∧
    (∀ els₁ els₂ : List (Nat × List LinkDescriptor), els₁.Perm els₂ →
       ∀ tKey role, backlinkEntries (allDescsOf els₁) tKey role =
         backlinkEntries (allDescsOf els₂) tKey role) ∧
    (∀ (toggle : Bool) (known : List Nat) (srcKey srcTitle : Nat)
       (specs₁ specs₂ : List (LinkSpec × List Target)), specs₁.Perm specs₂ →
       buildDraft typ title description fields
           (resolveLinks toggle known srcKey srcTitle specs₁).1 =
         buildDraft typ title description fields
           (resolveLinks toggle known srcKey srcTitle specs₂).1) := by
  have hdraft := buildDraft_eq_of_toFinset typ title description fields h
  refine ⟨hdraft, by rw [hdraft], fun role => sortByKey_sorted descKey _, ?_, ?_⟩
  · intro els₁ els₂ hperm tKey role
    apply sortByKey_eq_of_perm pairKey pairKey_inj
    exact ((((hperm.map (fun e => e.2)).flatten.filter
        (fun d => d.targetKey == tKey && d.role == role && d.hasReverse)).map
        (fun d => (d.sourceTitle, d.sourceKey))).dedup)
  · intro toggle known srcKey srcTitle specs₁ specs₂ hperm
    apply buildDraft_eq_of_toFinset
    simp only [resolveLinks]
    exact List.toFinset_eq_iff_perm_dedup.2
      ((hperm.map (fun st =>
        (resolveSpec toggle known srcKey srcTitle st.1 st.2).1)).flatten.dedup)

theorem c2_checksum_order_stable_witness :
    buildDraft 1 2 3 [(4, 5)]
        [LinkDescriptor.mk 0 1 2 3 4 none true,
         LinkDescriptor.mk 5 6 7 8 9 (some 1) false] =
      buildDraft 1 2 3 [(4, 5)]
        [LinkDescriptor.mk 5 6 7 8 9 (some 1) false,
         LinkDescriptor.mk 0 1 2 3 4 none true,
         LinkDescriptor.mk 0 1 2 3 4 none true] :=
  (c2_checksum_order_stable 1 2 3 [(4, 5)]
    [LinkDescriptor.mk 0 1 2 3 4 none true,
     LinkDescriptor.mk 5 6 7 8 9 (some 1) false]
    [LinkDescriptor.mk 5 6 7 8 9 (some 1) false,
     LinkDescriptor.mk 0 1 2 3 4 none true,
     LinkDescriptor.mk 0 1 2 3 4 none true] (by decide)).1

theorem countP_eq_one_of_nodup_mem {α : Type} [BEq α] [LawfulBEq α] {l : List α} {a : α}
    (hn : l.Nodup) (ha : a ∈ l) : l.countP (fun x => x == a) = 1 := by
  induction l with
  | nil => cases ha
  | cons b t ih =>
    rw [List.countP_cons]
    rcases List.mem_cons.1 ha with rfl | hat
    · have hb : a ∉ t := (List.nodup_cons.1 hn).1
      have hz : t.countP (fun x => x == a) = 0 := by
        rw [List.countP_eq_zero]
        intro x hx
        simp only [beq_iff_eq]
        exact fun hxa => hb (hxa ▸ hx)
      simp [hz]
    · have hba : ¬(b == a) = true := by
        simp only [beq_iff_eq]
        intro hba
        exact (List.nodup_cons.1 hn).1 (hba ▸ hat)
      rw [ih (List.nodup_cons.1 hn).2 hat]
      simp [hba]

/-- C8: after the two-pass link resolution, for every forward link A→B with a
reverse field configured, B's grouped backlink field for that role contains
exactly one entry referencing A — no missing and no duplicated entries. -/
theorem c8_backlink_exactly_one (allDescs : List LinkDescriptor)
    (aKey aTitle bKey role : Nat)
    (hmem : ∃ d, d ∈ allDescs ∧ d.sourceKey = aKey ∧ d.sourceTitle = aTitle ∧
       d.targetKey = bKey ∧ d.role = role ∧ d.hasReverse = true)
    (htitle : ∀ d, d ∈ allDescs → d.sourceKey = aKey → d.sourceTitle = aTitle) :
    ((backlinkEntries allDescs bKey role).filter
      (fun p => p.2 == aKey)).length = 1 := by
  obtain ⟨d, hd, hsk, hstl, htk, hrl, hrev⟩ := hmem
  have hmemL : (aTitle, aKey) ∈
      ((allDescs.filter
        (fun d => d.targetKey == bKey && d.role == role && d.hasReverse)).map
        (fun d => (d.sourceTitle, d.sourceKey))).dedup := by
    rw [List.mem_dedup]
    refine List.mem_map.2 ⟨d, List.mem_filter.2 ⟨hd, ?_⟩, by rw [hstl, hsk]⟩
    simp [htk, hrl, hrev]
  rw [← List.countP_eq_length_filter]
  simp only [backlinkEntries]
  rw [(sortByKey_perm pairKey _).countP_eq]
  have hchar : ∀ p ∈ ((allDescs.filter
        (fun d => d.targetKey == bKey && d.role == role && d.hasReverse)).map
        (fun d => (d.sourceTitle, d.sourceKey))).dedup,
      (p.2 == aKey) = true ↔ (p == (aTitle, aKey)) = true := by
    intro p hp
    rw [List.mem_dedup] at hp
    obtain ⟨d', hd', rfl⟩ := List.mem_map.1 hp
    have hd'' := (List.mem_filter.1 hd').1
    simp only [beq_iff_eq, Prod.mk.injEq]
    constructor
    · intro hk
      exact ⟨htitle d' hd'' hk, hk⟩
    · intro hk
      exact hk.2
  rw [List.countP_congr hchar]
  exact countP_eq_one_of_nodup_mem (List.nodup_dedup _) hmemL

theorem c8_backlink_exactly_one_witness :
    ((backlinkEntries
        [LinkDescriptor.mk 1 2 3 4 5 none true,
         LinkDescriptor.mk 1 2 3 4 5 none true,
         LinkDescriptor.mk 6 7 3 4 5 none true] 4 3).filter
      (fun p => p.2 == 1)).length = 1 :=
  c8_backlink_exactly_one
    [LinkDescriptor.mk 1 2 3 4 5 none true,
     LinkDescriptor.mk 1 2 3 4 5 none true,
     LinkDescriptor.mk 6 7 3 4 5 none true] 1 2 4 3
    ⟨LinkDescriptor.mk 1 2 3 4 5 none true, by decide⟩ (by decide)

theorem stepRemote_key {flag : Bool} {drafts : List SyncDraft}
    {r r' : RemoteWorkItem} (h : stepRemote flag drafts r = some r') :
    r'.key = r.key := by
  unfold stepRemote at h
  split at h
  · split at h
    · rw [← Option.some.inj h]
    · split at h
      · rw [← Option.some.inj h]
      · rw [← Option.some.inj h]
  · split at h
    · cases h
    · rw [← Option.some.inj h]

theorem filter_filterMap_keyed {α β : Type} (g : α → Option β) (p : β → Bool)
    (q : α → Bool) (hg : ∀ a b, g a = some b → p b = q a) :
    ∀ l : List α, (l.filterMap g).filter p = (l.filter q).filterMap g := by
  intro l
  induction l with
  | nil => rfl
  | cons a l ih =>
    cases hga : g a with
    | none =>
      simp only [List.filterMap_cons, List.filter_cons, hga]
      cases hq : q a
      · simpa using ih
      · simpa [List.filterMap_cons, hga] using ih
    | some b =>
      have hpb := hg a b hga
      simp only [List.filterMap_cons, List.filter_cons, hga]
      cases hq : q a
      · rw [hq] at hpb
        simpa [hpb] using ih
      · rw [hq] at hpb
        simp only [hpb, if_true, List.filterMap_cons, hga]
        simpa using ih

theorem mkCreated_filter_none : ∀ (n : Nat) (ds : List SyncDraft) (k : Nat),
    (∀ d ∈ ds, d.key ≠ k) →
    (mkCreated n ds).filter (fun r => r.key == k) = [] := by
  intro n ds
  induction ds generalizing n with
  | nil => intro k _; rfl
  | cons d rest ih =>
    intro k h
    have hk : d.key ≠ k := h d (List.mem_cons_self d rest)
    simp only [mkCreated, List.filter_cons]
    rw [if_neg (by simpa using hk)]
    exact ih (n + 1) k (fun d' hd' => h d' (List.mem_cons_of_mem d hd'))

theorem mkCreated_filter_mem : ∀ (n : Nat) (ds : List SyncDraft) (d : SyncDraft),
    (ds.map SyncDraft.key).Nodup → d ∈ ds →
    ∃ w, (mkCreated n ds).filter (fun r => r.key == d.key) =
      [RemoteWorkItem.mk w d.key d.checksum WIStatus.normal] := by
  intro n ds
  induction ds generalizing n with
  | nil => intro d _ hd; cases hd
  | cons a rest ih =>
    intro d hnd hd
    rw [List.map_cons] at hnd
    obtain ⟨hn1, hn2⟩ := List.nodup_cons.1 hnd
    rcases List.mem_cons.1 hd with rfl | hdr
    · refine ⟨n, ?_⟩
      simp only [mkCreated, List.filter_cons]
      rw [if_pos (by simp)]
      rw [mkCreated_filter_none (n + 1) rest d.key ?_]
      intro d' hd' he
      exact hn1 (List.mem_map.2 ⟨d', hd', he⟩)
    · have hne : a.key ≠ d.key := by
        intro he
        exact hn1 (he ▸ List.mem_map.2 ⟨d, hdr, rfl⟩)
      simp only [mkCreated, List.filter_cons]
      rw [if_neg (by simpa using hne)]
      exact ih (n + 1) d hn2 hdr

theorem draftFor_eq_of_mem : ∀ (drafts : List SyncDraft) (d : SyncDraft),
    (drafts.map SyncDraft.key).Nodup → d ∈ drafts →
    draftFor drafts d.key = some d := by
  intro drafts
  induction drafts with
  | nil => intro d _ h; cases h
  | cons a rest ih =>
    intro d hnd hd
    rw [List.map_cons] at hnd
    obtain ⟨hn1, hn2⟩ := List.nodup_cons.1 hnd
    rcases List.mem_cons.1 hd with rfl | hdr
    · simp [draftFor]
    · have hne : (a.key == d.key) = false := by
        simp only [beq_eq_false_iff_ne, ne_eq]
        intro he
        exact hn1 (he ▸ List.mem_map.2 ⟨d, hdr, rfl⟩)
      simp only [draftFor, List.find?_cons, hne]
      exact ih d hn2 hdr

theorem filter_key_cases (inv : List RemoteWorkItem) (k : Nat)
    (h : (inv.map RemoteWorkItem.key).Nodup) :
    inv.filter (fun r => r.key == k) = [] ∨
      ∃ r, inv.filter (fun r => r.key == k) = [r] ∧ r ∈ inv ∧ r.key = k := by
  induction inv with
  | nil => exact Or.inl rfl
  | cons a rest ih =>
    rw [List.map_cons] at h
    obtain ⟨h1, h2⟩ := List.nodup_cons.1 h
    by_cases hk : a.key = k
    · right
      refine ⟨a, ?_, List.mem_cons_self a rest, hk⟩
      simp only [List.filter_cons]
      rw [if_pos (by simpa using hk)]
      have hrest : rest.filter (fun r => r.key == k) = [] := by
        rw [List.filter_eq_nil_iff]
        intro r hr hcond
        have : r.key = k := by simpa using hcond
        exact h1 (List.mem_map.2 ⟨r, hr, this.trans hk.symm⟩)
      rw [hrest]
    · simp only [List.filter_cons]
      rw [if_neg (by simpa using hk)]
      rcases ih h2 with h0 | ⟨r, hr, hrm, hrk⟩
      · exact Or.inl h0
      · exact Or.inr ⟨r, hr, List.mem_cons_of_mem a hrm, hrk⟩

theorem applyRun_lookup {flag : Bool} {drafts : List SyncDraft}
    {inv : List RemoteWorkItem}
    (hinv : (inv.map RemoteWorkItem.key).Nodup)
    (hd : (drafts.map SyncDraft.key).Nodup)
    {d : SyncDraft} (hdm : d ∈ drafts) :
    ∃ w cs st, (applyRun flag drafts inv).filter (fun r => r.key == d.key) =
      [RemoteWorkItem.mk w d.key cs st] ∧ st ≠ WIStatus.deleted ∧
      cs = d.checksum := by
  have hsplit : (applyRun flag drafts inv).filter (fun r => r.key == d.key) =
      (inv.filterMap (stepRemote flag drafts)).filter (fun r => r.key == d.key) ++
        (mkCreated (maxWid inv + 1) (newDrafts drafts inv)).filter
          (fun r => r.key == d.key) := by
    rw [applyRun, List.filter_append]
  have hstep : (inv.filterMap (stepRemote flag drafts)).filter
        (fun r => r.key == d.key) =
      (inv.filter (fun r => r.key == d.key)).filterMap (stepRemote flag drafts) :=
    filter_filterMap_keyed _ _ _ (fun a b hab => by rw [stepRemote_key hab]) inv
  rcases filter_key_cases inv d.key hinv with hc | ⟨r, hr, hrm, hrk⟩
  · have habs : ∀ rr ∈ inv, rr.key ≠ d.key := by
      rw [List.filter_eq_nil_iff] at hc
      intro rr hrr he
      exact hc rr hrr (by simpa using he)
    have hnewmem : d ∈ newDrafts drafts inv := by
      rw [newDrafts, List.mem_filter]
      refine ⟨hdm, ?_⟩
      rw [List.all_eq_true]
      intro rr hrr
      simpa using habs rr hrr
    have hnodnew : ((newDrafts drafts inv).map SyncDraft.key).Nodup :=
      ((List.filter_sublist drafts).map SyncDraft.key).nodup hd
    obtain ⟨w, hw⟩ := mkCreated_filter_mem (maxWid inv + 1) _ d hnodnew hnewmem
    refine ⟨w, d.checksum, WIStatus.normal, ?_, by simp, rfl⟩
    rw [hsplit, hstep, hc]
    simpa using hw
  · have hfind : draftFor drafts r.key = some d := by
      rw [hrk]
      exact draftFor_eq_of_mem drafts d hd hdm
    have hnonew : (mkCreated (maxWid inv + 1) (newDrafts drafts inv)).filter
        (fun rr => rr.key == d.key) = [] := by
      apply mkCreated_filter_none
      intro d' hd' he
      rw [newDrafts, List.mem_filter] at hd'
      have hall := hd'.2
      rw [List.all_eq_true] at hall
      have := hall r hrm
      simp only [bne_iff_ne, ne_eq] at this
      exact this (hrk.trans he.symm)
    obtain ⟨wv, kv, cv, sv⟩ := r
    simp only at hrk hfind
    subst hrk
    rw [hsplit, hstep, hr, hnonew, List.append_nil]
    by_cases h1 : sv = WIStatus.deleted
    · subst h1
      refine ⟨wv, d.checksum, WIStatus.normal, ?_, by simp, rfl⟩
      simp [List.filterMap_cons, stepRemote, hfind]
    · by_cases h2 : d.checksum = cv
      · refine ⟨wv, cv, sv, ?_, h1, h2.symm⟩
        simp [List.filterMap_cons, stepRemote, hfind, h1, h2]
      · refine ⟨wv, d.checksum, WIStatus.normal, ?_, by simp, rfl⟩
        simp [List.filterMap_cons, stepRemote, hfind, h1, h2]

theorem decideAction_create_filter {inv : List RemoteWorkItem} {d d' : SyncDraft}
    (h : decideAction inv d = .ok (.create d')) :
    inv.filter (fun r => r.key == d.key) = [] := by
  unfold decideAction getByKey at h
  cases hf : inv.filter (fun r => r.key == d.key) with
  | nil => rfl
  | cons a tl =>
    rw [hf] at h
    cases tl with
    | nil =>
      have h' : (if a.status = WIStatus.deleted then
            Except.ok (SyncAction.patch a.wid d)
          else if d.checksum = a.checksum then Except.ok SyncAction.noop
          else Except.ok (SyncAction.patch a.wid d)) =
          Except.ok (SyncAction.create d') := h
      split_ifs at h' <;> simp at h'
    | cons b tl2 =>
      cases (show (Except.error SyncError.duplicateKey :
        Except SyncError SyncAction) = Except.ok (SyncAction.create d') from h)

theorem decideAction_patch_single {inv : List RemoteWorkItem} {d : SyncDraft}
    {w : Nat} {d' : SyncDraft} (h : decideAction inv d = .ok (.patch w d')) :
    ∃ r, inv.filter (fun r => r.key == d.key) = [r] := by
  unfold decideAction getByKey at h
  cases hf : inv.filter (fun r => r.key == d.key) with
  | nil =>
    rw [hf] at h
    have h' : Except.ok (SyncAction.create d) =
        Except.ok (SyncAction.patch w d') := h
    simp at h'
  | cons a tl =>
    cases tl with
    | nil => exact ⟨a, rfl⟩
    | cons b tl2 =>
      rw [hf] at h
      cases (show (Except.error SyncError.duplicateKey :
        Except SyncError SyncAction) = Except.ok (SyncAction.patch w d') from h)

theorem mem_creates_spec {flag : Bool} {drafts : List SyncDraft}
    {inv : List RemoteWorkItem} {c : SyncDraft}
    (h : c ∈ (runSync flag drafts inv).creates) :
    c ∈ drafts ∧ ∃ x, decideAction inv c = .ok (.create x) := by
  simp only [runSync] at h
  obtain ⟨a, ha, hfa⟩ := List.mem_filterMap.1 h
  cases hda : decideAction inv a with
  | error e => rw [hda] at hfa; simp at hfa
  | ok act =>
    cases act with
    | create x =>
      rw [hda] at hfa
      simp only [Option.some.injEq] at hfa
      subst hfa
      exact ⟨ha, x, hda⟩
    | patch w x => rw [hda] at hfa; simp at hfa
    | noop => rw [hda] at hfa; simp at hfa

theorem mem_patches_spec {flag : Bool} {drafts : List SyncDraft}
    {inv : List RemoteWorkItem} {p : Nat × SyncDraft}
    (h : p ∈ (runSync flag drafts inv).patches) :
    p.2 ∈ drafts ∧ ∃ x, decideAction inv p.2 = .ok (.patch p.1 x) := by
  simp only [runSync] at h
  obtain ⟨a, ha, hfa⟩ := List.mem_filterMap.1 h
  cases hda : decideAction inv a with
  | error e => rw [hda] at hfa; simp at hfa
  | ok act =>
    cases act with
    | create x => rw [hda] at hfa; simp at hfa
    | patch w x =>
      rw [hda] at hfa
      simp only [Option.some.injEq] at hfa
      subst hfa
      exact ⟨ha, x, hda⟩
    | noop => rw [hda] at hfa; simp at hfa

theorem filterMap_key_sublist {α β : Type} (g : α → Option β) (f : β → Nat)
    (f' : α → Nat) (hg : ∀ a b, g a = some b → f b = f' a) :
    ∀ l : List α, ((l.filterMap g).map f).Sublist (l.map f') := by
  intro l
  induction l with
  | nil => simp
  | cons a l ih =>
    cases hga : g a with
    | none =>
      simp only [List.filterMap_cons, hga, List.map_cons]
      exact ih.cons _
    | some b =>
      simp only [List.filterMap_cons, hga, List.map_cons]
      rw [hg a b hga]
      exact ih.cons₂ _

theorem mkCreated_map_key : ∀ (n : Nat) (ds : List SyncDraft),
    (mkCreated n ds).map RemoteWorkItem.key = ds.map SyncDraft.key := by
  intro n ds
  induction ds generalizing n with
  | nil => rfl
  | cons d rest ih => simp [mkCreated, ih]

/-- C1 (amended): with unchanged drafts and the inventory produced by the
first run, the second run issues zero create and zero patch calls; per item
not marked deleted, a draft checksum equal to the stored remote checksum
means no mutation call (a marked-deleted item with a reappearing draft is
patched to clear the marker even when checksums match). -/
theorem c1_second_run_quiescent (flag : Bool) (drafts : List SyncDraft)
    (inv : List RemoteWorkItem)
    (hinv : (inv.map RemoteWorkItem.key).Nodup)
    (hd : (drafts.map SyncDraft.key).Nodup) :
    (runSync flag drafts (applyRun flag drafts inv)).creates = [] ∧
    (runSync flag drafts (applyRun flag drafts inv)).patches = [] ∧
    (∀ (inv' : List RemoteWorkItem) (d : SyncDraft) (r : RemoteWorkItem),
       getByKey inv' d.key = .ok (some r) → r.status ≠ WIStatus.deleted →
       d.checksum = r.checksum → decideAction inv' d = .ok .noop) := by
  have hnoop : ∀ d ∈ drafts,
      decideAction (applyRun flag drafts inv) d = .ok .noop := by
    intro d hdm
    obtain ⟨w, cs, st, hf, hst, hcs⟩ := applyRun_lookup hinv hd hdm
    unfold decideAction getByKey
    rw [hf]
    simp [hst, hcs]
  refine ⟨?_, ?_, ?_⟩
  · simp only [runSync]
    rw [List.filterMap_eq_nil_iff]
    intro d hdm
    rw [hnoop d hdm]
  · simp only [runSync]
    rw [List.filterMap_eq_nil_iff]
    intro d hdm
    rw [hnoop d hdm]
  · intro inv' d r hg hst hcs
    unfold decideAction
    rw [hg]
    simp [hst, hcs]

theorem c1_second_run_quiescent_witness :
    (runSync false [SyncDraft.mk 0 5] (applyRun false [SyncDraft.mk 0 5]
        [RemoteWorkItem.mk 1 0 4 WIStatus.normal])).creates = [] ∧
    (runSync false [SyncDraft.mk 0 5] (applyRun false [SyncDraft.mk 0 5]
        [RemoteWorkItem.mk 1 0 4 WIStatus.normal])).patches = [] :=
  ⟨(c1_second_run_quiescent false [SyncDraft.mk 0 5]
      [RemoteWorkItem.mk 1 0 4 WIStatus.normal] (by decide) (by decide)).1,
   (c1_second_run_quiescent false [SyncDraft.mk 0 5]
      [RemoteWorkItem.mk 1 0 4 WIStatus.normal] (by decide) (by decide)).2.1⟩

/-- C1 counterexample: a marked-deleted remote item whose stored checksum
equals the reappearing draft's checksum still receives a patch call (the
update clearing the deleted marker), so "draft checksum equals stored remote
checksum → no remote mutation call" is false as stated. -/
theorem c1_equal_checksum_still_patched :
    (SyncDraft.mk 0 5).checksum = (RemoteWorkItem.mk 1 0 5 WIStatus.deleted).checksum ∧
    decideAction [RemoteWorkItem.mk 1 0 5 WIStatus.deleted] (SyncDraft.mk 0 5) =
      .ok (.patch 1 (SyncDraft.mk 0 5)) ∧
    (runSync false [SyncDraft.mk 0 5]
        [RemoteWorkItem.mk 1 0 5 WIStatus.deleted]).patches =
      [(1, SyncDraft.mk 0 5)] :=
  ⟨rfl, rfl, rfl⟩

/-- C3: at most one remote item per external key — a mapped key is never
created a second time, a duplicate key in the loaded inventory is escalated
as a per-element error (reported, not merged: no create and no patch is
issued for it), and the key-uniqueness invariant is preserved by a run. -/
theorem c3_at_most_one_per_key (flag : Bool) (drafts : List SyncDraft)
    (inv : List RemoteWorkItem) :
    (∀ (d : SyncDraft) (r : RemoteWorkItem),
       getByKey inv d.key = .ok (some r) →
       ∀ d', decideAction inv d ≠ .ok (.create d')) ∧
    (∀ d ∈ drafts, 2 ≤ (inv.filter (fun r => r.key == d.key)).length →
       decideAction inv d = .error .duplicateKey ∧
       d.key ∈ (runSync flag drafts inv).errors ∧
       (∀ c ∈ (runSync flag drafts inv).creates, c.key ≠ d.key) ∧
       (∀ p ∈ (runSync flag drafts inv).patches, p.2.key ≠ d.key)) ∧
    ((inv.map RemoteWorkItem.key).Nodup → (drafts.map SyncDraft.key).Nodup →
       ((applyRun flag drafts inv).map RemoteWorkItem.key).Nodup) := by
  refine ⟨?_, ?_, ?_⟩
  · intro d r hg d' hcontra
    have hflt := decideAction_create_filter hcontra
    unfold getByKey at hg
    rw [hflt] at hg
    simp at hg
  · intro d hdm hlen
    have hdup : decideAction inv d = .error .duplicateKey := by
      unfold decideAction getByKey
      cases hf : inv.filter (fun r => r.key == d.key) with
      | nil => rw [hf] at hlen; simp at hlen
      | cons a tl =>
        cases tl with
        | nil => rw [hf] at hlen; simp at hlen
        | cons b tl2 => rfl
    refine ⟨hdup, ?_, ?_, ?_⟩
    · simp only [runSync]
      exact List.mem_filterMap.2 ⟨d, hdm, by rw [hdup]⟩
    · intro c hc he
      obtain ⟨_, x, hx⟩ := mem_creates_spec hc
      have hflt := decideAction_create_filter hx
      rw [he] at hflt
      rw [hflt] at hlen
      simp at hlen
    · intro p hp he
      obtain ⟨_, x, hx⟩ := mem_patches_spec hp
      obtain ⟨r, hr⟩ := decideAction_patch_single hx
      rw [he] at hr
      rw [hr] at hlen
      simp at hlen
  · intro hinv hd
    rw [applyRun, List.map_append]
    refine List.Nodup.append ?_ ?_ ?_
    · exact (filterMap_key_sublist _ _ _
        (fun a b hab => stepRemote_key hab) inv).nodup hinv
    · rw [mkCreated_map_key]
      exact ((List.filter_sublist drafts).map SyncDraft.key).nodup hd
    · rw [mkCreated_map_key]
      intro x hx1 hx2
      have hx1' : x ∈ inv.map RemoteWorkItem.key :=
        (filterMap_key_sublist _ _ _
          (fun a b hab => stepRemote_key hab) inv).subset hx1
      obtain ⟨dd, hdd, hddk⟩ := List.mem_map.1 hx2
      rw [newDrafts, List.mem_filter] at hdd
      have hall := hdd.2
      rw [List.all_eq_true] at hall
      obtain ⟨rr, hrr, hrrk⟩ := List.mem_map.1 hx1'
      have hne := hall rr hrr
      simp only [bne_iff_ne, ne_eq] at hne
      exact hne (hrrk.trans hddk.symm)

theorem c3_at_most_one_per_key_witness :
    decideAction
        [RemoteWorkItem.mk 1 0 4 WIStatus.normal,
         RemoteWorkItem.mk 2 0 7 WIStatus.normal] (SyncDraft.mk 0 9) =
      .error .duplicateKey ∧
    (0 : Nat) ∈ (runSync false [SyncDraft.mk 0 9]
        [RemoteWorkItem.mk 1 0 4 WIStatus.normal,
         RemoteWorkItem.mk 2 0 7 WIStatus.normal]).errors :=
  ⟨((c3_at_most_one_per_key false [SyncDraft.mk 0 9]
      [RemoteWorkItem.mk 1 0 4 WIStatus.normal,
       RemoteWorkItem.mk 2 0 7 WIStatus.normal]).2.1
      (SyncDraft.mk 0 9) (by decide) (by decide)).1,
   ((c3_at_most_one_per_key false [SyncDraft.mk 0 9]
      [RemoteWorkItem.mk 1 0 4 WIStatus.normal,
       RemoteWorkItem.mk 2 0 7 WIStatus.normal]).2.1
      (SyncDraft.mk 0 9) (by decide) (by decide)).2.1⟩

/-- C4: for a previously-synced key with no draft this pass, the run issues
exactly one status-update call setting the deleted marker and no patch or
create call for that key; a hard deletion happens only with the destructive
flag; on reappearance the marker is cleared by an update reusing the existing
remote identifier, never by a new create. -/
theorem c4_soft_delete_roundtrip (drafts : List SyncDraft)
    (inv : List RemoteWorkItem) (r : RemoteWorkItem)
    (hr : r ∈ inv) (hst : r.status ≠ WIStatus.deleted)
    (habs : ∀ d ∈ drafts, d.key ≠ r.key)
    (hwid : (inv.map RemoteWorkItem.wid).Nodup) :
    (runSync false drafts inv).statusUpdates.count r.wid = 1 ∧
    (runSync false drafts inv).hardDeletes = [] ∧
    (r.wid ∈ (runSync true drafts inv).hardDeletes ∧
      (runSync true drafts inv).statusUpdates = []) ∧
    (∀ flag, (∀ c ∈ (runSync flag drafts inv).creates, c.key ≠ r.key) ∧
       (∀ p ∈ (runSync flag drafts inv).patches, p.2.key ≠ r.key)) ∧
    RemoteWorkItem.mk r.wid r.key r.checksum WIStatus.deleted ∈
      applyRun false drafts inv ∧
    (∀ (inv' : List RemoteWorkItem) (d : SyncDraft) (r' : RemoteWorkItem),
       getByKey inv' d.key = .ok (some r') → r'.status = WIStatus.deleted →
       decideAction inv' d = .ok (.patch r'.wid d)) ∧
    (∀ (drafts' : List SyncDraft) (r' : RemoteWorkItem) (d : SyncDraft),
       draftFor drafts' r'.key = some d → r'.status = WIStatus.deleted →
       stepRemote false drafts' r' =
         some (RemoteWorkItem.mk r'.wid r'.key d.checksum WIStatus.normal)) := by
  have hnone : draftFor drafts r.key = none := by
    rw [draftFor, List.find?_eq_none]
    intro d hdm
    simpa using habs d hdm
  have hobs : r ∈ obsoleteItems drafts inv := by
    rw [obsoleteItems, List.mem_filter]
    refine ⟨hr, ?_⟩
    rw [hnone]
    simpa using hst
  have hmemwid : r.wid ∈ (obsoleteItems drafts inv).map (fun x => x.wid) :=
    List.mem_map.2 ⟨r, hobs, rfl⟩
  have hnodobs : ((obsoleteItems drafts inv).map (fun x => x.wid)).Nodup :=
    ((List.filter_sublist inv).map (fun x => x.wid)).nodup hwid
  refine ⟨?_, rfl, ⟨?_, rfl⟩, ?_, ?_, ?_, ?_⟩
  · simp only [runSync, Bool.false_eq_true, if_false]
    rw [List.count_eq_countP]
    exact countP_eq_one_of_nodup_mem hnodobs hmemwid
  · simpa only [runSync, if_true] using hmemwid
  · intro flag
    constructor
    · intro c hc
      exact habs c (mem_creates_spec hc).1
    · intro p hp
      exact habs p.2 (mem_patches_spec hp).1
  · rw [applyRun]
    refine List.mem_append.2 (Or.inl ?_)
    refine List.mem_filterMap.2 ⟨r, hr, ?_⟩
    unfold stepRemote
    rw [hnone]
    obtain ⟨wv, kv, cv, sv⟩ := r
    rfl
  · intro inv' d r' hg hdel
    unfold decideAction
    rw [hg]
    simp [hdel]
  · intro drafts' r' d hfind hdel
    unfold stepRemote
    rw [hfind]
    simp [hdel]

theorem c4_soft_delete_roundtrip_witness :
    (runSync false [] [RemoteWorkItem.mk 3 8 5 WIStatus.normal]).statusUpdates.count 3 = 1 ∧
    (runSync false [] [RemoteWorkItem.mk 3 8 5 WIStatus.normal]).hardDeletes = [] ∧
    RemoteWorkItem.mk 3 8 5 WIStatus.deleted ∈
      applyRun false [] [RemoteWorkItem.mk 3 8 5 WIStatus.normal] :=
  ⟨(c4_soft_delete_roundtrip [] [RemoteWorkItem.mk 3 8 5 WIStatus.normal]
      (RemoteWorkItem.mk 3 8 5 WIStatus.normal) (by decide) (by decide)
      (by intro d hd; cases hd) (by decide)).1,
   (c4_soft_delete_roundtrip [] [RemoteWorkItem.mk 3 8 5 WIStatus.normal]
      (RemoteWorkItem.mk 3 8 5 WIStatus.normal) (by decide) (by decide)
      (by intro d hd; cases hd) (by decide)).2.1,
   (c4_soft_delete_roundtrip [] [RemoteWorkItem.mk 3 8 5 WIStatus.normal]
      (RemoteWorkItem.mk 3 8 5 WIStatus.normal) (by decide) (by decide)
      (by intro d hd; cases hd) (by decide)).2.2.2.2.1⟩

end Capella2Polarion
